import Mathlib

/-!
Shallow embedding of the 2048 board engine from
`src/mini-app/components/2048-game.tsx`, together with spec-side
definitions and the theorems settling the claims about it.

Boards are lists of rows of natural numbers; out-of-range reads default
to 0 (the embedded functions are only ever applied to well-formed 4×4
boards, where the defaults are never hit).  The two `Math.random()`
draws consumed by a spawn are modelled as rational numbers in `[0, 1)`.
-/

namespace Game2048

abbrev Board := List (List Nat)

/-- `SIZE = 4` from the source. -/
def SIZE : Nat := 4

/-- `createEmptyBoard`: an N×N board of all zeros. -/
def createEmptyBoard : Board := List.replicate SIZE (List.replicate SIZE 0)

/-- Read a cell; `board[r][c]`, defaulting out-of-range reads to 0. -/
def cell (b : Board) (r c : Nat) : Nat := (b.getD r []).getD c 0

/-- `cloneBoard`: `board.map(row => [...row])`; value-level identity. -/
def cloneBoard (b : Board) : Board := b.map (fun row => row)

/-- `transpose`: `board[0].map((_, i) => board.map(row => row[i]))`. -/
def transpose (b : Board) : Board :=
  (List.range (b.headD []).length).map (fun i => b.map (fun row => row.getD i 0))

/-- `reverseRows`: `board.map(row => [...row].reverse())`. -/
def reverseRows (b : Board) : Board := b.map (fun row => row.reverse)

/-- The merge loop of `slideAndMerge`: scan the zero-free list left to
right; an adjacent equal pair becomes its doubled value and both cells
are consumed (the `skip` flag in the source). -/
def mergePairs : List Nat → List Nat
  | [] => []
  | [x] => [x]
  | x :: y :: rest =>
      if x = y then x * 2 :: mergePairs rest else x :: mergePairs (y :: rest)

/-- The `while (merged.length < SIZE) merged.push(0)` loop. -/
def padZeros (l : List Nat) : List Nat := l ++ List.replicate (SIZE - l.length) 0

/-- `slideAndMerge`: drop zeros, merge adjacent equal pairs left to
right, pad with trailing zeros to length `SIZE`. -/
def slideAndMerge (row : List Nat) : List Nat :=
  padZeros (mergePairs (row.filter (fun v => v != 0)))

/-- The per-row loop body of `move`: slide every row. -/
def moveRows (b : Board) : Board := b.map slideAndMerge

/-- `merged.some((v, i) => v !== newBoard[r][i])`. -/
def rowChanged (merged row : List Nat) : Bool :=
  (List.range merged.length).any (fun i => merged.getD i 0 != row.getD i 0)

/-- The accumulated `moved` flag of the per-row loop of `move`. -/
def anyRowMoved (b : Board) : Bool :=
  b.any (fun r => rowChanged (slideAndMerge r) r)

inductive Direction
  | up
  | down
  | left
  | right
deriving DecidableEq

/-- `move`: orient the board so the direction becomes "left", slide
every row, orient back; `moved` is accumulated against the oriented
pre-slide rows. -/
def moveResult (board : Board) (d : Direction) : Board × Bool :=
  let newBoard := cloneBoard board
  match d with
  | .up =>
      let t := transpose newBoard
      (transpose (moveRows t), anyRowMoved t)
  | .down =>
      let t := reverseRows (transpose newBoard)
      (transpose (reverseRows (moveRows t)), anyRowMoved t)
  | .left =>
      (moveRows newBoard, anyRowMoved newBoard)
  | .right =>
      let t := reverseRows newBoard
      (reverseRows (moveRows t), anyRowMoved t)

/-- `hasMoves`: scan all cells for an empty cell or an equal horizontal
or vertical neighbour. -/
def hasMoves (b : Board) : Bool :=
  (List.range SIZE).any fun r => (List.range SIZE).any fun c =>
    (cell b r c == 0) ||
    (decide (c + 1 < SIZE) && (cell b r c == cell b r (c + 1))) ||
    (decide (r + 1 < SIZE) && (cell b r c == cell b (r + 1) c))

/-- `addedBoard.flat().reduce((a, b) => a + b, 0)`. -/
def boardSum (b : Board) : Nat := b.flatten.foldl (· + ·) 0

/-- The `empty` list collected by `addRandomTile`, in row-major order. -/
def emptyCells (b : Board) : List (Nat × Nat) :=
  (List.range SIZE).flatMap fun r =>
    ((List.range SIZE).filter (fun c => cell b r c == 0)).map (fun c => (r, c))

/-- `board[r][c] = v` on a board value. -/
def setCell (b : Board) (r c v : Nat) : Board :=
  b.set r ((b.getD r []).set c v)

/-- `addRandomTile`: the two `Math.random()` draws are passed in as
rationals `q1` (cell choice: index `⌊q1·|empty|⌋`) and `q2` (value
choice: 2 when `q2 < 0.9`, else 4). -/
def addRandomTile (b : Board) (q1 q2 : ℚ) : Board :=
  let empty := emptyCells b
  if empty.length = 0 then b
  else
    let rc := empty.getD (⌊q1 * empty.length⌋).toNat (0, 0)
    setCell b rc.1 rc.2 (if q2 < 9 / 10 then 2 else 4)

/-- The component state: `board`, `score`, `gameOver`. -/
structure Session where
  board : Board
  score : Nat
  gameOver : Bool
deriving DecidableEq

/-- `handleMove`: ignore input when game over; reject no-op moves;
otherwise spawn on the move result, derive the score as the board sum,
and set `gameOver` when the post-spawn board has no move. -/
def handleMove (s : Session) (d : Direction) (q1 q2 : ℚ) : Session :=
  if s.gameOver then s
  else
    let res := moveResult s.board d
    if !res.2 then s
    else
      let addedBoard := addRandomTile res.1 q1 q2
      { board := addedBoard
        score := boardSum addedBoard
        gameOver := if !hasMoves addedBoard then true else s.gameOver }

/-- Well-formed boards: 4 rows of 4 cells. -/
def WF4 (b : Board) : Prop := b.length = 4 ∧ ∀ r ∈ b, r.length = 4

instance (b : Board) : Decidable (WF4 b) :=
  decidable_of_iff (b.length = 4 ∧ ∀ r ∈ b, r.length = 4) Iff.rfl

/-! ### Spec-side definitions

These follow the wording of the specification, to be compared with the
source embedding above. -/

/-- Modelled from the spec wording of `slideAndMergeLine` step 2: scan
left to right, replace each adjacent equal non-zero pair not yet
consumed by a prior merge with their sum. -/
def specMerge : List Nat → List Nat
  | [] => []
  | [x] => [x]
  | x :: y :: rest =>
      if x = y ∧ x ≠ 0 then (x + y) :: specMerge rest else x :: specMerge (y :: rest)

/-- Modelled from the spec wording of `slideAndMergeLine`: remove
zeros preserving order, merge leftmost-pair-greedy, pad with trailing
zeros to length 4. -/
def specSlideAndMergeLine (line : List Nat) : List Nat :=
  let merged := specMerge (line.filter (fun v => v != 0))
  merged ++ List.replicate (4 - merged.length) 0

/-- Modelled from the spec: the transpose of a 4×4 board, written with
explicit index ranges. -/
def specTranspose (b : Board) : Board :=
  (List.range 4).map (fun i => (List.range 4).map (fun j => cell b j i))

/-- Modelled from the spec direction mapping of `move`: orient so that
the direction becomes left, slide every row, orient back. -/
def specMove (b : Board) (d : Direction) : Board :=
  match d with
  | .left => b.map specSlideAndMergeLine
  | .right => reverseRows ((reverseRows b).map specSlideAndMergeLine)
  | .up => specTranspose ((specTranspose b).map specSlideAndMergeLine)
  | .down =>
      specTranspose (reverseRows ((reverseRows (specTranspose b)).map specSlideAndMergeLine))

/-- Modelled from the spec wording of `hasAnyMoveAvailable`: an empty
cell, or a horizontally or vertically adjacent equal non-zero pair. -/
def specHasAnyMove (b : Board) : Prop :=
  (∃ r < 4, ∃ c < 4, cell b r c = 0) ∨
  (∃ r < 4, ∃ c, c + 1 < 4 ∧ cell b r c ≠ 0 ∧ cell b r c = cell b r (c + 1)) ∨
  (∃ r, r + 1 < 4 ∧ ∃ c < 4, cell b r c ≠ 0 ∧ cell b r c = cell b (r + 1) c)

/-- A line merges nothing: the merge scan leaves its zero-free part
unchanged. -/
def noMergeLine (r : List Nat) : Prop :=
  mergePairs (r.filter (fun v => v != 0)) = r.filter (fun v => v != 0)

instance (r : List Nat) : Decidable (noMergeLine r) :=
  decidable_of_iff
    (mergePairs (r.filter (fun v => v != 0)) = r.filter (fun v => v != 0)) Iff.rfl

/-- Orientation taking direction `d` to "left", as in the four branches
of `move`. -/
def orient (d : Direction) (b : Board) : Board :=
  match d with
  | .up => transpose b
  | .down => reverseRows (transpose b)
  | .left => b
  | .right => reverseRows b

/-- The inverse orientation applied by `move` after sliding. -/
def unorient (d : Direction) (b : Board) : Board :=
  match d with
  | .up => transpose b
  | .down => transpose (reverseRows b)
  | .left => b
  | .right => reverseRows b

/-! ### Row-level lemmas -/

lemma mergePairs_length_le : ∀ l : List Nat, (mergePairs l).length ≤ l.length := by
  intro l
  induction l using mergePairs.induct with
  | case1 => simp [mergePairs]
  | case2 x => simp [mergePairs]
  | case3 y rest ih => simp [mergePairs]; omega
  | case4 x y rest h ih => simp [mergePairs, h] at ih ⊢; omega

lemma mergePairs_sum : ∀ l : List Nat, (mergePairs l).sum = l.sum := by
  intro l
  induction l using mergePairs.induct with
  | case1 => simp [mergePairs]
  | case2 x => simp [mergePairs]
  | case3 y rest ih => simp [mergePairs, ih]; omega
  | case4 x y rest h ih => simp [mergePairs, h] at ih ⊢; omega

lemma mergePairs_ne_zero : ∀ l : List Nat, (∀ x ∈ l, x ≠ 0) → ∀ x ∈ mergePairs l, x ≠ 0 := by
  intro l
  induction l using mergePairs.induct with
  | case1 => simp [mergePairs]
  | case2 x => simp [mergePairs]
  | case3 y rest ih =>
      intro hnz z hz
      simp [mergePairs] at hz
      rcases hz with rfl | hz
      · have := hnz y (by simp)
        omega
      · exact ih (fun w hw => hnz w (by simp [hw])) z hz
  | case4 x y rest h ih =>
      intro hnz z hz
      simp [mergePairs, h] at hz
      rcases hz with rfl | hz
      · exact hnz z (by simp)
      · exact ih (fun w hw => hnz w (by simp at hw ⊢; tauto)) z hz

lemma filter_ne_zero_sum (l : List Nat) : (l.filter (fun v => v != 0)).sum = l.sum := by
  induction l with
  | nil => rfl
  | cons x t ih =>
      by_cases hx : x = 0
      · subst hx; simpa [List.filter_cons] using ih
      · simp [List.filter_cons, hx, ih]

lemma filter_eq_self_of_ne_zero (l : List Nat) (h : ∀ x ∈ l, x ≠ 0) :
    l.filter (fun v => v != 0) = l := by
  rw [List.filter_eq_self]
  intro a ha
  simpa using h a ha

lemma padZeros_sum (l : List Nat) : (padZeros l).sum = l.sum := by
  simp [padZeros]

lemma padZeros_length (l : List Nat) (h : l.length ≤ 4) : (padZeros l).length = 4 := by
  simp [padZeros, SIZE]
  omega

lemma slideAndMerge_sum (r : List Nat) : (slideAndMerge r).sum = r.sum := by
  rw [slideAndMerge, padZeros_sum, mergePairs_sum, filter_ne_zero_sum]

lemma slideAndMerge_length (r : List Nat) (h : r.length ≤ 4) :
    (slideAndMerge r).length = 4 := by
  apply padZeros_length
  calc (mergePairs (r.filter (fun v => v != 0))).length
      ≤ (r.filter (fun v => v != 0)).length := mergePairs_length_le _
    _ ≤ r.length := List.length_filter_le _ _
    _ ≤ 4 := h

lemma mergePairs_filter_ne_zero (r : List Nat) :
    ∀ x ∈ mergePairs (r.filter (fun v => v != 0)), x ≠ 0 := by
  apply mergePairs_ne_zero
  intro x hx
  simp [List.mem_filter] at hx
  exact hx.2

lemma filter_padZeros (l : List Nat) (h : ∀ x ∈ l, x ≠ 0) :
    (padZeros l).filter (fun v => v != 0) = l := by
  rw [padZeros, List.filter_append, filter_eq_self_of_ne_zero l h]
  simp

lemma slideAndMerge_fix (r0 : List Nat) (h : noMergeLine (slideAndMerge r0)) :
    slideAndMerge (slideAndMerge r0) = slideAndMerge r0 := by
  have hfix : (slideAndMerge r0).filter (fun v => v != 0)
      = mergePairs (r0.filter (fun v => v != 0)) :=
    filter_padZeros _ (mergePairs_filter_ne_zero r0)
  rw [noMergeLine, hfix] at h
  rw [slideAndMerge, hfix, h]
  rfl

lemma rowChanged_self (r : List Nat) : rowChanged r r = false := by
  simp [rowChanged]

lemma rowChanged_eq_true_iff (m r : List Nat) (h : m.length = r.length) :
    rowChanged m r = true ↔ m ≠ r := by
  constructor
  · intro hc hmr
    subst hmr
    simp [rowChanged_self] at hc
  · intro hne
    by_contra hc
    apply hne
    rw [Bool.not_eq_true] at hc
    apply List.ext_getElem h
    intro i h1 h2
    have hall : ∀ i ∈ List.range m.length, (m.getD i 0 != r.getD i 0) = false := by
      simpa [rowChanged, List.any_eq_false] using hc
    have := hall i (List.mem_range.mpr h1)
    rw [List.getD_eq_getElem m 0 h1, List.getD_eq_getElem r 0 h2] at this
    simpa using this

lemma map_eq_self_iff {α : Type _} (f : α → α) (l : List α) :
    l.map f = l ↔ ∀ x ∈ l, f x = x := by
  induction l with
  | nil => simp
  | cons a t ih => simp [ih]

lemma anyRowMoved_iff (b : Board) (h : ∀ r ∈ b, r.length = 4) :
    anyRowMoved b = true ↔ moveRows b ≠ b := by
  rw [anyRowMoved, List.any_eq_true]
  constructor
  · rintro ⟨r, hr, hc⟩ heq
    rw [moveRows, map_eq_self_iff] at heq
    rw [rowChanged_eq_true_iff _ _ (by rw [slideAndMerge_length r (by rw [h r hr]), h r hr])] at hc
    exact hc (heq r hr)
  · intro hne
    rw [moveRows, Ne, map_eq_self_iff] at hne
    push_neg at hne
    obtain ⟨r, hr, hc⟩ := hne
    exact ⟨r, hr, (rowChanged_eq_true_iff _ _
      (by rw [slideAndMerge_length r (by rw [h r hr]), h r hr])).mpr hc⟩

lemma length_four_eq {α : Type _} (l : List α) (h : l.length = 4) :
    ∃ a b c d, l = [a, b, c, d] := by
  rcases l with _ | ⟨a, _ | ⟨b, _ | ⟨c, _ | ⟨d, _ | ⟨e, t⟩⟩⟩⟩⟩ <;>
    simp only [List.length_cons, List.length_nil] at h <;>
    first
      | omega
      | exact ⟨a, b, c, d, rfl⟩

lemma WF4_eq (b : Board) (h : WF4 b) :
    ∃ r0 r1 r2 r3, b = [r0, r1, r2, r3] ∧
      r0.length = 4 ∧ r1.length = 4 ∧ r2.length = 4 ∧ r3.length = 4 := by
  obtain ⟨hl, hr⟩ := h
  obtain ⟨r0, r1, r2, r3, rfl⟩ := length_four_eq b hl
  exact ⟨r0, r1, r2, r3, rfl, hr _ (by simp), hr _ (by simp), hr _ (by simp), hr _ (by simp)⟩

lemma transpose_transpose (b : Board) (h : WF4 b) : transpose (transpose b) = b := by
  obtain ⟨r0, r1, r2, r3, rfl, h0, h1, h2, h3⟩ := WF4_eq b h
  obtain ⟨a0, a1, a2, a3, rfl⟩ := length_four_eq r0 h0
  obtain ⟨b0, b1, b2, b3, rfl⟩ := length_four_eq r1 h1
  obtain ⟨c0, c1, c2, c3, rfl⟩ := length_four_eq r2 h2
  obtain ⟨d0, d1, d2, d3, rfl⟩ := length_four_eq r3 h3
  rfl

lemma WF4_transpose (b : Board) (h : WF4 b) : WF4 (transpose b) := by
  obtain ⟨r0, r1, r2, r3, rfl, h0, h1, h2, h3⟩ := WF4_eq b h
  obtain ⟨a0, a1, a2, a3, rfl⟩ := length_four_eq r0 h0
  obtain ⟨b0, b1, b2, b3, rfl⟩ := length_four_eq r1 h1
  obtain ⟨c0, c1, c2, c3, rfl⟩ := length_four_eq r2 h2
  obtain ⟨d0, d1, d2, d3, rfl⟩ := length_four_eq r3 h3
  refine ⟨rfl, ?_⟩
  intro r hr
  simp only [transpose, List.mem_map] at hr
  obtain ⟨i, hi, rfl⟩ := hr
  rfl

lemma reverseRows_reverseRows (b : Board) : reverseRows (reverseRows b) = b := by
  simp [reverseRows, List.map_map, Function.comp_def]

lemma WF4_reverseRows (b : Board) (h : WF4 b) : WF4 (reverseRows b) := by
  obtain ⟨hl, hr⟩ := h
  refine ⟨by simpa [reverseRows] using hl, ?_⟩
  intro r hrm
  simp only [reverseRows, List.mem_map] at hrm
  obtain ⟨row, hrow, rfl⟩ := hrm
  simpa using hr row hrow

lemma WF4_moveRows (b : Board) (h : WF4 b) : WF4 (moveRows b) := by
  obtain ⟨hl, hr⟩ := h
  refine ⟨by simpa [moveRows] using hl, ?_⟩
  intro r hrm
  simp only [moveRows, List.mem_map] at hrm
  obtain ⟨row, hrow, rfl⟩ := hrm
  exact slideAndMerge_length row (by rw [hr row hrow])

lemma cloneBoard_eq (b : Board) : cloneBoard b = b := List.map_id' b

lemma moveResult_eq (b : Board) (d : Direction) :
    moveResult b d = (unorient d (moveRows (orient d b)), anyRowMoved (orient d b)) := by
  cases d <;> simp [moveResult, orient, unorient, cloneBoard_eq]

lemma WF4_orient (d : Direction) (b : Board) (h : WF4 b) : WF4 (orient d b) := by
  cases d <;> simp only [orient] <;>
    first
      | exact h
      | exact WF4_transpose b h
      | exact WF4_reverseRows b h
      | exact WF4_reverseRows _ (WF4_transpose b h)

lemma WF4_unorient (d : Direction) (b : Board) (h : WF4 b) : WF4 (unorient d b) := by
  cases d <;> simp only [unorient] <;>
    first
      | exact h
      | exact WF4_transpose b h
      | exact WF4_reverseRows b h
      | exact WF4_transpose _ (WF4_reverseRows b h)

lemma unorient_orient (d : Direction) (b : Board) (h : WF4 b) :
    unorient d (orient d b) = b := by
  cases d <;> simp only [orient, unorient]
  · exact transpose_transpose b h
  · rw [reverseRows_reverseRows]
    exact transpose_transpose b h
  · exact reverseRows_reverseRows b

lemma orient_unorient (d : Direction) (b : Board) (h : WF4 b) :
    orient d (unorient d b) = b := by
  cases d <;> simp only [orient, unorient]
  · exact transpose_transpose b h
  · rw [transpose_transpose _ (WF4_reverseRows b h)]
    exact reverseRows_reverseRows b
  · exact reverseRows_reverseRows b

lemma specMerge_eq_mergePairs : ∀ l : List Nat, (∀ x ∈ l, x ≠ 0) → specMerge l = mergePairs l := by
  intro l
  induction l using mergePairs.induct with
  | case1 => intro _; rfl
  | case2 x => intro _; rfl
  | case3 y rest ih =>
      intro hnz
      have hy : y ≠ 0 := hnz y (by simp)
      rw [specMerge, mergePairs, if_pos rfl, if_pos (And.intro rfl hy),
        ih (fun w hw => hnz w (by simp [hw]))]
      congr 1
      omega
  | case4 x y rest h ih =>
      intro hnz
      rw [specMerge, mergePairs, if_neg h, if_neg (by tauto),
        ih (fun w hw => hnz w (by simp at hw ⊢; tauto))]

lemma slideAndMerge_eq_spec (line : List Nat) :
    slideAndMerge line = specSlideAndMergeLine line := by
  rw [slideAndMerge, specSlideAndMergeLine, padZeros,
    specMerge_eq_mergePairs _ (fun x hx => by simp [List.mem_filter] at hx; exact hx.2)]
  rfl

lemma transpose_eq_specTranspose (b : Board) (h : WF4 b) : transpose b = specTranspose b := by
  obtain ⟨r0, r1, r2, r3, rfl, h0, h1, h2, h3⟩ := WF4_eq b h
  obtain ⟨a0, a1, a2, a3, rfl⟩ := length_four_eq r0 h0
  obtain ⟨b0, b1, b2, b3, rfl⟩ := length_four_eq r1 h1
  obtain ⟨c0, c1, c2, c3, rfl⟩ := length_four_eq r2 h2
  obtain ⟨d0, d1, d2, d3, rfl⟩ := length_four_eq r3 h3
  rfl

lemma map_spec_eq_moveRows (b : Board) : b.map specSlideAndMergeLine = moveRows b := by
  rw [moveRows]
  exact List.map_congr_left (fun r _ => (slideAndMerge_eq_spec r).symm)

lemma specMove_eq (b : Board) (h : WF4 b) (d : Direction) :
    specMove b d = (moveResult b d).1 := by
  rw [moveResult_eq]
  cases d
  · show specTranspose ((specTranspose b).map specSlideAndMergeLine) = unorient .up (moveRows (orient .up b))
    rw [← transpose_eq_specTranspose b h, map_spec_eq_moveRows]
    rw [← transpose_eq_specTranspose _ (WF4_moveRows _ (WF4_transpose b h))]
    rfl
  · show specTranspose (reverseRows ((reverseRows (specTranspose b)).map specSlideAndMergeLine))
        = unorient .down (moveRows (orient .down b))
    rw [← transpose_eq_specTranspose b h, map_spec_eq_moveRows]
    rw [← transpose_eq_specTranspose _
      (WF4_reverseRows _ (WF4_moveRows _ (WF4_reverseRows _ (WF4_transpose b h))))]
    rfl
  · show b.map specSlideAndMergeLine = unorient .left (moveRows (orient .left b))
    rw [map_spec_eq_moveRows]
    rfl
  · show reverseRows ((reverseRows b).map specSlideAndMergeLine)
        = unorient .right (moveRows (orient .right b))
    rw [map_spec_eq_moveRows]
    rfl

lemma eq_iff_cells (b b2 : Board) (h : WF4 b) (h2 : WF4 b2) :
    b = b2 ↔ ∀ r < 4, ∀ c < 4, cell b r c = cell b2 r c := by
  constructor
  · rintro rfl
    intro r _ c _
    rfl
  · obtain ⟨r0, r1, r2, r3, rfl, h0, h1, hh2, h3⟩ := WF4_eq b h
    obtain ⟨a0, a1, a2, a3, rfl⟩ := length_four_eq r0 h0
    obtain ⟨b0, b1, b2x, b3, rfl⟩ := length_four_eq r1 h1
    obtain ⟨c0, c1, c2, c3, rfl⟩ := length_four_eq r2 hh2
    obtain ⟨d0, d1, d2, d3, rfl⟩ := length_four_eq r3 h3
    obtain ⟨s0, s1, s2, s3, rfl, g0, g1, g2, g3⟩ := WF4_eq b2 h2
    obtain ⟨e0, e1, e2, e3, rfl⟩ := length_four_eq s0 g0
    obtain ⟨f0, f1, f2, f3, rfl⟩ := length_four_eq s1 g1
    obtain ⟨gg0, gg1, gg2, gg3, rfl⟩ := length_four_eq s2 g2
    obtain ⟨k0, k1, k2, k3, rfl⟩ := length_four_eq s3 g3
    intro hcc
    obtain rfl : a0 = e0 := hcc 0 (by omega) 0 (by omega)
    obtain rfl : a1 = e1 := hcc 0 (by omega) 1 (by omega)
    obtain rfl : a2 = e2 := hcc 0 (by omega) 2 (by omega)
    obtain rfl : a3 = e3 := hcc 0 (by omega) 3 (by omega)
    obtain rfl : b0 = f0 := hcc 1 (by omega) 0 (by omega)
    obtain rfl : b1 = f1 := hcc 1 (by omega) 1 (by omega)
    obtain rfl : b2x = f2 := hcc 1 (by omega) 2 (by omega)
    obtain rfl : b3 = f3 := hcc 1 (by omega) 3 (by omega)
    obtain rfl : c0 = gg0 := hcc 2 (by omega) 0 (by omega)
    obtain rfl : c1 = gg1 := hcc 2 (by omega) 1 (by omega)
    obtain rfl : c2 = gg2 := hcc 2 (by omega) 2 (by omega)
    obtain rfl : c3 = gg3 := hcc 2 (by omega) 3 (by omega)
    obtain rfl : d0 = k0 := hcc 3 (by omega) 0 (by omega)
    obtain rfl : d1 = k1 := hcc 3 (by omega) 1 (by omega)
    obtain rfl : d2 = k2 := hcc 3 (by omega) 2 (by omega)
    obtain rfl : d3 = k3 := hcc 3 (by omega) 3 (by omega)
    rfl

lemma ne_iff_cell_ne (b b2 : Board) (h : WF4 b) (h2 : WF4 b2) :
    b ≠ b2 ↔ ∃ r < 4, ∃ c < 4, cell b r c ≠ cell b2 r c := by
  rw [Ne, eq_iff_cells b b2 h h2]
  push_neg
  rfl

lemma moved_iff_board_ne (b : Board) (d : Direction) (hb : WF4 b) :
    (moveResult b d).2 = true ↔ (moveResult b d).1 ≠ b := by
  rw [moveResult_eq]
  have ht : WF4 (orient d b) := WF4_orient d b hb
  have hm : WF4 (moveRows (orient d b)) := WF4_moveRows _ ht
  show anyRowMoved (orient d b) = true ↔ unorient d (moveRows (orient d b)) ≠ b
  rw [anyRowMoved_iff _ ht.2]
  constructor
  · intro h1 h2
    apply h1
    have h3 := congrArg (orient d) h2
    rwa [orient_unorient d _ hm] at h3
  · intro h1 h2
    apply h1
    rw [h2, unorient_orient d b hb]

lemma hasMoves_iff_spec (b : Board) : hasMoves b = true ↔ specHasAnyMove b := by
  rw [hasMoves, specHasAnyMove]
  simp only [SIZE, List.any_eq_true, List.mem_range]
  constructor
  · rintro ⟨r, hr, c, hc, hcond⟩
    simp only [Bool.or_eq_true, Bool.and_eq_true, beq_iff_eq, decide_eq_true_eq] at hcond
    rcases hcond with (h0 | ⟨hlt, heq⟩) | ⟨hlt, heq⟩
    · exact Or.inl ⟨r, hr, c, hc, h0⟩
    · by_cases hz : cell b r c = 0
      · exact Or.inl ⟨r, hr, c, hc, hz⟩
      · exact Or.inr (Or.inl ⟨r, hr, c, hlt, hz, heq⟩)
    · by_cases hz : cell b r c = 0
      · exact Or.inl ⟨r, hr, c, hc, hz⟩
      · exact Or.inr (Or.inr ⟨r, hlt, c, hc, hz, heq⟩)
  · rintro (⟨r, hr, c, hc, h0⟩ | ⟨r, hr, c, hlt, hne, heq⟩ | ⟨r, hlt, c, hc, hne, heq⟩)
    · exact ⟨r, hr, c, hc, by simp [h0]⟩
    · exact ⟨r, hr, c, by omega, by simp [hlt, heq]⟩
    · exact ⟨r, by omega, c, hc, by simp [hlt, heq]⟩

example : slideAndMerge [2, 2, 2, 2] = [4, 4, 0, 0] := by decide
example : slideAndMerge [2, 2, 2, 0] = [4, 2, 0, 0] := by decide
example : slideAndMerge [0, 2, 0, 2] = [4, 0, 0, 0] := by decide
example : slideAndMerge [2, 4, 2, 4] = [2, 4, 2, 4] := by decide

lemma WF4_moveResult (b : Board) (d : Direction) (h : WF4 b) : WF4 (moveResult b d).1 := by
  rw [moveResult_eq]
  exact WF4_unorient _ _ (WF4_moveRows _ (WF4_orient d b h))

/-- C1: `slideAndMergeLine` equals the spec algorithm (compact, merge
leftmost-pair-greedy without chaining, pad to 4), and matches the four
worked examples. -/
theorem claim1_slideAndMergeLine :
    (∀ line : List Nat, slideAndMerge line = specSlideAndMergeLine line) ∧
    slideAndMerge [2, 2, 2, 2] = [4, 4, 0, 0] ∧
    slideAndMerge [2, 2, 2, 0] = [4, 2, 0, 0] ∧
    slideAndMerge [0, 2, 0, 2] = [4, 0, 0, 0] ∧
    slideAndMerge [2, 4, 2, 4] = [2, 4, 2, 4] :=
  ⟨slideAndMerge_eq_spec, by decide, by decide, by decide, by decide⟩

/-- C2: on well-formed boards, `move` computes exactly the
orient-slide-unorient pipeline described by the spec. -/
theorem claim2_move_pipeline (b : Board) (h : WF4 b) (d : Direction) :
    (moveResult b d).1 = specMove b d :=
  (specMove_eq b h d).symm

/-- Witness for C2 at a concrete board. -/
theorem claim2_move_pipeline_witness :
    WF4 [[2, 2, 0, 4], [0, 0, 0, 0], [2, 0, 2, 0], [4, 4, 4, 4]] ∧
    (moveResult [[2, 2, 0, 4], [0, 0, 0, 0], [2, 0, 2, 0], [4, 4, 4, 4]] Direction.down).1
      = specMove [[2, 2, 0, 4], [0, 0, 0, 0], [2, 0, 2, 0], [4, 4, 4, 4]] Direction.down :=
  ⟨by decide, claim2_move_pipeline _ (by decide) Direction.down⟩

/-- C3: the `moved` flag is true exactly when the resulting board
differs from the input board in some cell. -/
theorem claim3_moved_iff_changed (b : Board) (d : Direction) (hb : WF4 b) :
    (moveResult b d).2 = true ↔
      ∃ r < 4, ∃ c < 4, cell (moveResult b d).1 r c ≠ cell b r c := by
  rw [moved_iff_board_ne b d hb]
  exact ne_iff_cell_ne _ b (WF4_moveResult b d hb) hb

/-- Witness for C3 at a concrete board. -/
theorem claim3_moved_iff_changed_witness :
    WF4 [[0, 2, 0, 0], [0, 0, 0, 0], [0, 0, 0, 0], [0, 0, 0, 0]] ∧
    ((moveResult [[0, 2, 0, 0], [0, 0, 0, 0], [0, 0, 0, 0], [0, 0, 0, 0]] Direction.left).2 = true ↔
      ∃ r < 4, ∃ c < 4,
        cell (moveResult [[0, 2, 0, 0], [0, 0, 0, 0], [0, 0, 0, 0], [0, 0, 0, 0]]
          Direction.left).1 r c ≠
        cell [[0, 2, 0, 0], [0, 0, 0, 0], [0, 0, 0, 0], [0, 0, 0, 0]] r c) :=
  ⟨by decide, claim3_moved_iff_changed _ Direction.left (by decide)⟩

/-- C4: `hasMoves` is true exactly when the board has an empty cell or
an adjacent equal non-zero pair. -/
theorem claim4_hasMoves (b : Board) : hasMoves b = true ↔ specHasAnyMove b :=
  hasMoves_iff_spec b

/-- C5 counterexample: sliding left twice from a board whose top row is
`[2,2,2,2]` reports `moved = true` on the second application
(`[2,2,2,2] → [4,4,0,0] → [8,0,0,0]`), contradicting the claim that a
second move in the same direction always yields `moved = false`. -/
theorem claim5_counterexample :
    (moveResult (moveResult [[2, 2, 2, 2], [0, 0, 0, 0], [0, 0, 0, 0], [0, 0, 0, 0]]
        Direction.left).1 Direction.left).2 = true := by decide

/-- C5 amended: a second move in the same direction is a no-op
(`moved = false`) provided the slid board, viewed in the move's
orientation, has no remaining mergeable adjacent pair; merge-created
pairs are the only way a second slide can move again. -/
theorem claim5_amended (b : Board) (d : Direction) (hb : WF4 b)
    (h : ∀ r ∈ orient d (moveResult b d).1, noMergeLine r) :
    (moveResult (moveResult b d).1 d).2 = false := by
  have hX : WF4 (moveRows (orient d b)) := WF4_moveRows _ (WF4_orient d b hb)
  have hres : (moveResult b d).1 = unorient d (moveRows (orient d b)) := by rw [moveResult_eq]
  have horient : orient d (moveResult b d).1 = moveRows (orient d b) := by
    rw [hres, orient_unorient d _ hX]
  rw [horient] at h
  rw [moveResult_eq]
  show anyRowMoved (orient d (moveResult b d).1) = false
  rw [horient, anyRowMoved, List.any_eq_false]
  intro r hr
  rw [moveRows] at hr
  obtain ⟨r0, hr0, rfl⟩ := List.mem_map.mp hr
  rw [slideAndMerge_fix r0 (h _ (by rw [moveRows]; exact hr))]
  simp [rowChanged_self]

/-- Witness for C5 amended at a concrete board with no mergeable pair
after the slide. -/
theorem claim5_amended_witness :
    WF4 [[2, 4, 0, 0], [0, 0, 0, 0], [0, 0, 0, 0], [0, 0, 0, 0]] ∧
    (∀ r ∈ orient Direction.left
        (moveResult [[2, 4, 0, 0], [0, 0, 0, 0], [0, 0, 0, 0], [0, 0, 0, 0]] Direction.left).1,
      noMergeLine r) ∧
    (moveResult (moveResult [[2, 4, 0, 0], [0, 0, 0, 0], [0, 0, 0, 0], [0, 0, 0, 0]]
        Direction.left).1 Direction.left).2 = false :=
  ⟨by decide, by decide, claim5_amended _ Direction.left (by decide) (by decide)⟩

/-- C7: a rejected move (`moved = false`) leaves the session entirely
unchanged: no spawn, same board, same score, same gameOver flag. -/
theorem claim7_noop_rejected (s : Session) (d : Direction) (q1 q2 : ℚ)
    (h : (moveResult s.board d).2 = false) :
    handleMove s d q1 q2 = s := by
  rw [handleMove]
  by_cases hg : s.gameOver
  · rw [if_pos hg]
  · rw [if_neg hg]
    simp only [h]
    rfl

/-- Witness for C7: pushing left on an already left-packed board. -/
theorem claim7_noop_rejected_witness :
    (moveResult ([[2, 4, 0, 0], [0, 0, 0, 0], [0, 0, 0, 0], [0, 0, 0, 0]] : Board)
        Direction.left).2 = false ∧
    handleMove ⟨[[2, 4, 0, 0], [0, 0, 0, 0], [0, 0, 0, 0], [0, 0, 0, 0]], 6, false⟩
        Direction.left 0 0
      = ⟨[[2, 4, 0, 0], [0, 0, 0, 0], [0, 0, 0, 0], [0, 0, 0, 0]], 6, false⟩ :=
  ⟨by decide, claim7_noop_rejected _ Direction.left 0 0 (by decide)⟩

/-- C10: once `gameOver` is set, every directional input leaves the
session unchanged. -/
theorem claim10_gameOver_frozen (s : Session) (d : Direction) (q1 q2 : ℚ)
    (h : s.gameOver = true) :
    handleMove s d q1 q2 = s := by
  rw [handleMove, if_pos h]

/-- Witness for C10 on a concrete finished session. -/
theorem claim10_gameOver_frozen_witness :
    (Session.gameOver ⟨[[2, 4, 2, 4], [4, 2, 4, 2], [2, 4, 2, 4], [4, 2, 4, 2]], 48, true⟩
        = true) ∧
    handleMove ⟨[[2, 4, 2, 4], [4, 2, 4, 2], [2, 4, 2, 4], [4, 2, 4, 2]], 48, true⟩
        Direction.up 0 0
      = ⟨[[2, 4, 2, 4], [4, 2, 4, 2], [2, 4, 2, 4], [4, 2, 4, 2]], 48, true⟩ :=
  ⟨rfl, claim10_gameOver_frozen _ Direction.up 0 0 rfl⟩

/-- C6: an accepted move spawns on the move result, stores the
post-spawn board, derives the score as the post-spawn board sum, and
sets `gameOver` exactly when the post-spawn board has no move left. -/
theorem claim6_accepted_move (s : Session) (d : Direction) (q1 q2 : ℚ)
    (hg : s.gameOver = false) (hm : (moveResult s.board d).2 = true) :
    (handleMove s d q1 q2).board = addRandomTile (moveResult s.board d).1 q1 q2 ∧
    (handleMove s d q1 q2).score
      = boardSum (addRandomTile (moveResult s.board d).1 q1 q2) ∧
    ((handleMove s d q1 q2).gameOver = true ↔
      hasMoves (addRandomTile (moveResult s.board d).1 q1 q2) = false) := by
  rw [handleMove, if_neg (by rw [hg]; exact Bool.false_ne_true)]
  simp only [hm]
  refine ⟨rfl, rfl, ?_⟩
  by_cases hM : hasMoves (addRandomTile (moveResult s.board d).1 q1 q2)
  · simp [hM, hg]
  · simp [hM]

/-- Witness for C6 on a concrete accepted move. -/
theorem claim6_accepted_move_witness :
    (Session.gameOver ⟨[[0, 2, 0, 0], [0, 0, 0, 0], [0, 0, 0, 0], [0, 0, 0, 0]], 2, false⟩
        = false) ∧
    (moveResult ([[0, 2, 0, 0], [0, 0, 0, 0], [0, 0, 0, 0], [0, 0, 0, 0]] : Board)
        Direction.left).2 = true ∧
    ((handleMove ⟨[[0, 2, 0, 0], [0, 0, 0, 0], [0, 0, 0, 0], [0, 0, 0, 0]], 2, false⟩
          Direction.left 0 0).board
        = addRandomTile
            (moveResult ([[0, 2, 0, 0], [0, 0, 0, 0], [0, 0, 0, 0], [0, 0, 0, 0]] : Board)
              Direction.left).1 0 0 ∧
      (handleMove ⟨[[0, 2, 0, 0], [0, 0, 0, 0], [0, 0, 0, 0], [0, 0, 0, 0]], 2, false⟩
          Direction.left 0 0).score
        = boardSum (addRandomTile
            (moveResult ([[0, 2, 0, 0], [0, 0, 0, 0], [0, 0, 0, 0], [0, 0, 0, 0]] : Board)
              Direction.left).1 0 0) ∧
      ((handleMove ⟨[[0, 2, 0, 0], [0, 0, 0, 0], [0, 0, 0, 0], [0, 0, 0, 0]], 2, false⟩
          Direction.left 0 0).gameOver = true ↔
        hasMoves (addRandomTile
            (moveResult ([[0, 2, 0, 0], [0, 0, 0, 0], [0, 0, 0, 0], [0, 0, 0, 0]] : Board)
              Direction.left).1 0 0) = false)) :=
  ⟨rfl, by decide, claim6_accepted_move _ Direction.left 0 0 rfl (by decide)⟩

lemma foldl_add_eq_sum (l : List Nat) : ∀ n : Nat, l.foldl (· + ·) n = n + l.sum := by
  induction l with
  | nil => intro n; simp
  | cons x t ih => intro n; simp [List.foldl_cons, ih]; omega

lemma boardSum_eq_sum (b : Board) : boardSum b = (b.map List.sum).sum := by
  rw [boardSum, foldl_add_eq_sum, Nat.zero_add, List.sum_flatten]

lemma boardSum_reverseRows (b : Board) : boardSum (reverseRows b) = boardSum b := by
  rw [boardSum_eq_sum, boardSum_eq_sum, reverseRows, List.map_map]
  congr 1
  exact List.map_congr_left (fun r _ => List.sum_reverse r)

lemma boardSum_moveRows (b : Board) : boardSum (moveRows b) = boardSum b := by
  rw [boardSum_eq_sum, boardSum_eq_sum, moveRows, List.map_map]
  congr 1
  exact List.map_congr_left (fun r _ => slideAndMerge_sum r)

lemma boardSum_transpose (b : Board) (h : WF4 b) : boardSum (transpose b) = boardSum b := by
  obtain ⟨r0, r1, r2, r3, rfl, h0, h1, h2, h3⟩ := WF4_eq b h
  obtain ⟨a0, a1, a2, a3, rfl⟩ := length_four_eq r0 h0
  obtain ⟨b0, b1, b2, b3, rfl⟩ := length_four_eq r1 h1
  obtain ⟨c0, c1, c2, c3, rfl⟩ := length_four_eq r2 h2
  obtain ⟨d0, d1, d2, d3, rfl⟩ := length_four_eq r3 h3
  show boardSum [[a0,b0,c0,d0],[a1,b1,c1,d1],[a2,b2,c2,d2],[a3,b3,c3,d3]]
      = boardSum [[a0,a1,a2,a3],[b0,b1,b2,b3],[c0,c1,c2,c3],[d0,d1,d2,d3]]
  rw [boardSum_eq_sum, boardSum_eq_sum]
  simp [List.sum_cons]
  omega

lemma boardSum_moveResult (b : Board) (d : Direction) (h : WF4 b) :
    boardSum (moveResult b d).1 = boardSum b := by
  rw [moveResult_eq]
  show boardSum (unorient d (moveRows (orient d b))) = boardSum b
  have hom : WF4 (moveRows (orient d b)) := WF4_moveRows _ (WF4_orient d b h)
  cases d <;> simp only [unorient, orient] at hom ⊢
  · rw [boardSum_transpose _ hom, boardSum_moveRows, boardSum_transpose b h]
  · rw [boardSum_transpose _ (WF4_reverseRows _ hom), boardSum_reverseRows,
      boardSum_moveRows, boardSum_reverseRows, boardSum_transpose b h]
  · rw [boardSum_moveRows]
  · rw [boardSum_reverseRows, boardSum_moveRows, boardSum_reverseRows]

lemma getD_set_elem {α : Type _} (l : List α) (d : α) (i j : Nat) (x : α) :
    (l.set i x).getD j d = if i = j ∧ i < l.length then x else l.getD j d := by
  rw [List.getD_eq_getElem?_getD, List.getD_eq_getElem?_getD, List.getElem?_set]
  by_cases hij : i = j
  · subst hij
    by_cases hlt : i < l.length
    · simp [hlt]
    · simp [hlt, List.getElem?_eq_none (by omega : l.length ≤ i)]
  · simp [hij]

lemma cell_setCell_other (b : Board) (r c v r2 c2 : Nat) (h : ¬(r2 = r ∧ c2 = c)) :
    cell (setCell b r c v) r2 c2 = cell b r2 c2 := by
  rw [cell, cell, setCell, getD_set_elem]
  by_cases hrr : r = r2 ∧ r < b.length
  · rw [if_pos hrr]
    obtain ⟨rfl, hlt⟩ := hrr
    rw [getD_set_elem]
    rw [if_neg (fun hh => h ⟨rfl, hh.1.symm⟩)]
  · rw [if_neg hrr]

lemma cell_setCell_same (b : Board) (r c v : Nat) (hb : WF4 b) (hr : r < 4) (hc : c < 4) :
    cell (setCell b r c v) r c = v := by
  have hrb : r < b.length := hb.1 ▸ hr
  have hrow : (b.getD r []).length = 4 := by
    rw [List.getD_eq_getElem _ _ hrb]
    exact hb.2 _ (List.getElem_mem hrb)
  rw [cell, setCell, getD_set_elem, if_pos ⟨rfl, hrb⟩, getD_set_elem,
    if_pos ⟨rfl, by omega⟩]


lemma mem_emptyCells (b : Board) (p : Nat × Nat) (hp : p ∈ emptyCells b) :
    p.1 < 4 ∧ p.2 < 4 ∧ cell b p.1 p.2 = 0 := by
  simp only [emptyCells, SIZE, List.mem_flatMap, List.mem_map, List.mem_filter,
    List.mem_range, beq_iff_eq] at hp
  obtain ⟨r, hr, c, ⟨hc, h0⟩, rfl⟩ := hp
  exact ⟨hr, hc, h0⟩

lemma floor_index_lt (q : ℚ) (n : Nat) (h0 : 0 ≤ q) (h1 : q < 1) (hn : 0 < n) :
    (⌊q * (n : ℚ)⌋).toNat < n := by
  have hq : q * (n : ℚ) < (n : ℚ) := by
    calc q * (n : ℚ) < 1 * (n : ℚ) := by
          apply mul_lt_mul_of_pos_right h1
          exact_mod_cast hn
      _ = (n : ℚ) := one_mul _
  have h2 : ⌊q * (n : ℚ)⌋ < (n : ℤ) := Int.floor_lt.mpr (by exact_mod_cast hq)
  have h3 : (0 : ℤ) ≤ ⌊q * (n : ℚ)⌋ := Int.floor_nonneg.mpr (by positivity)
  omega

lemma sum_set_add (l : List Nat) :
    ∀ i v, i < l.length → (l.set i v).sum + l.getD i 0 = l.sum + v := by
  induction l with
  | nil => intro i v h; simp at h
  | cons x t ih =>
      intro i v h
      cases i with
      | zero => simp [List.set]; omega
      | succ n =>
          simp only [List.set, List.sum_cons, List.getD_cons_succ]
          have := ih n v (by simpa using h)
          omega

lemma boardSum_setCell (b : Board) (r c v : Nat) (hb : WF4 b) (hr : r < 4) (hc : c < 4)
    (h0 : cell b r c = 0) : boardSum (setCell b r c v) = boardSum b + v := by
  have hrb : r < b.length := hb.1 ▸ hr
  have hrow : (b.getD r []).length = 4 := by
    rw [List.getD_eq_getElem _ _ hrb]
    exact hb.2 _ (List.getElem_mem hrb)
  rw [boardSum_eq_sum, boardSum_eq_sum, setCell, List.map_set]
  have h1 := sum_set_add (b.map List.sum) r ((b.getD r []).set c v).sum (by simpa using hrb)
  have h2 : (b.map List.sum).getD r 0 = (b.getD r []).sum := by
    rw [List.getD_eq_getElem _ _ (by simpa using hrb), List.getElem_map,
      List.getD_eq_getElem _ _ hrb]
  have h3 := sum_set_add (b.getD r []) c v (by rw [hrow]; exact hc)
  rw [cell] at h0
  omega


lemma mem_emptyCells_iff (b : Board) (r c : Nat) :
    (r, c) ∈ emptyCells b ↔ r < 4 ∧ c < 4 ∧ cell b r c = 0 := by
  simp only [emptyCells, SIZE, List.mem_flatMap, List.mem_map, List.mem_filter,
    List.mem_range, beq_iff_eq]
  constructor
  · rintro ⟨r2, hr2, c2, ⟨hc2, h02⟩, heq⟩
    rw [Prod.mk.injEq] at heq
    obtain ⟨rfl, rfl⟩ := heq
    exact ⟨hr2, hc2, h02⟩
  · rintro ⟨hr, hc, h0⟩
    exact ⟨r, hr, c, ⟨hc, h0⟩, rfl⟩

lemma emptyCells_eq_nil_iff (b : Board) :
    emptyCells b = [] ↔ ∀ r < 4, ∀ c < 4, cell b r c ≠ 0 := by
  rw [List.eq_nil_iff_forall_not_mem]
  constructor
  · intro h r hr c hc hcell
    exact h (r, c) ((mem_emptyCells_iff b r c).mpr ⟨hr, hc, hcell⟩)
  · intro h p hp
    obtain ⟨h4, h5, h6⟩ := mem_emptyCells b p hp
    exact h _ h4 _ h5 h6

lemma addRandomTile_spawn (b : Board) (q1 q2 : ℚ) (h0 : 0 ≤ q1) (h1 : q1 < 1)
    (hne : emptyCells b ≠ []) :
    ∃ r c, r < 4 ∧ c < 4 ∧ cell b r c = 0 ∧
      (r, c) = (emptyCells b).getD ((⌊q1 * ((emptyCells b).length : ℚ)⌋).toNat) (0, 0) ∧
      addRandomTile b q1 q2 = setCell b r c (if q2 < 9 / 10 then 2 else 4) := by
  have hlen : 0 < (emptyCells b).length := List.length_pos.mpr hne
  have hlt : (⌊q1 * ((emptyCells b).length : ℚ)⌋).toNat < (emptyCells b).length :=
    floor_index_lt _ _ h0 h1 hlen
  have hpmem : (emptyCells b).getD ((⌊q1 * ((emptyCells b).length : ℚ)⌋).toNat) (0, 0)
      ∈ emptyCells b := by
    rw [List.getD_eq_getElem _ _ hlt]
    exact List.getElem_mem hlt
  obtain ⟨h4, h5, h6⟩ := mem_emptyCells b _ hpmem
  refine ⟨_, _, h4, h5, h6, rfl, ?_⟩
  rw [addRandomTile]
  simp only [if_neg (by omega : ¬ (emptyCells b).length = 0)]

lemma addRandomTile_full (b : Board) (q1 q2 : ℚ) (h : emptyCells b = []) :
    addRandomTile b q1 q2 = b := by
  rw [addRandomTile]
  simp [h]

/-- C8: a move never changes the total of the tile values, and a spawn
on a board with an empty cell raises the total by exactly the spawned
value, 2 or 4. -/
theorem claim8_sum_invariant :
    (∀ (b : Board) (d : Direction), WF4 b → boardSum (moveResult b d).1 = boardSum b) ∧
    (∀ (b : Board) (q1 q2 : ℚ), WF4 b → 0 ≤ q1 → q1 < 1 → emptyCells b ≠ [] →
      ∃ v, (v = 2 ∨ v = 4) ∧ boardSum (addRandomTile b q1 q2) = boardSum b + v) := by
  constructor
  · exact fun b d h => boardSum_moveResult b d h
  · intro b q1 q2 hb h0 h1 hne
    obtain ⟨r, c, h4, h5, h6, _hp, heq⟩ := addRandomTile_spawn b q1 q2 h0 h1 hne
    refine ⟨if q2 < 9 / 10 then 2 else 4, ?_, ?_⟩
    · by_cases hq : q2 < 9 / 10 <;> simp [hq]
    · rw [heq, boardSum_setCell b r c _ hb h4 h5 h6]

/-- Witness for C8 at a concrete board and spawn draw. -/
theorem claim8_sum_invariant_witness :
    WF4 [[2, 2, 0, 4], [0, 0, 0, 0], [2, 0, 2, 0], [4, 4, 4, 4]] ∧
    boardSum (moveResult [[2, 2, 0, 4], [0, 0, 0, 0], [2, 0, 2, 0], [4, 4, 4, 4]]
        Direction.right).1
      = boardSum [[2, 2, 0, 4], [0, 0, 0, 0], [2, 0, 2, 0], [4, 4, 4, 4]] ∧
    ((0 : ℚ) ≤ 0 ∧ (0 : ℚ) < 1 ∧
      emptyCells [[2, 2, 0, 4], [0, 0, 0, 0], [2, 0, 2, 0], [4, 4, 4, 4]] ≠ [] ∧
      ∃ v, (v = 2 ∨ v = 4) ∧
        boardSum (addRandomTile [[2, 2, 0, 4], [0, 0, 0, 0], [2, 0, 2, 0], [4, 4, 4, 4]] 0 0)
          = boardSum [[2, 2, 0, 4], [0, 0, 0, 0], [2, 0, 2, 0], [4, 4, 4, 4]] + v) :=
  ⟨by decide, claim8_sum_invariant.1 _ Direction.right (by decide),
    le_refl 0, zero_lt_one, by decide,
    claim8_sum_invariant.2 _ 0 0 (by decide) (le_refl 0) zero_lt_one (by decide)⟩

/-- C9: a spawn on a full board is the identity; on a board with an
empty cell it sets exactly one previously empty cell - the one selected
by the first draw out of the empty-cell list - to 2 (draw below 0.9) or
4 (draw at least 0.9), leaving every other cell unchanged. -/
theorem claim9_spawn (b : Board) (q1 q2 : ℚ) (hb : WF4 b) (h0 : 0 ≤ q1) (h1 : q1 < 1) :
    ((∀ r < 4, ∀ c < 4, cell b r c ≠ 0) → addRandomTile b q1 q2 = b) ∧
    ((∃ r < 4, ∃ c < 4, cell b r c = 0) →
      ∃ r c, r < 4 ∧ c < 4 ∧ cell b r c = 0 ∧
        (r, c) = (emptyCells b).getD ((⌊q1 * ((emptyCells b).length : ℚ)⌋).toNat) (0, 0) ∧
        addRandomTile b q1 q2 = setCell b r c (if q2 < 9 / 10 then 2 else 4) ∧
        cell (addRandomTile b q1 q2) r c = (if q2 < 9 / 10 then 2 else 4) ∧
        ((if q2 < 9 / 10 then (2 : Nat) else 4) = 2 ∨
          (if q2 < 9 / 10 then (2 : Nat) else 4) = 4) ∧
        ∀ r2 c2, ¬(r2 = r ∧ c2 = c) →
          cell (addRandomTile b q1 q2) r2 c2 = cell b r2 c2) := by
  constructor
  · intro hfull
    exact addRandomTile_full b q1 q2 ((emptyCells_eq_nil_iff b).mpr hfull)
  · rintro ⟨r0, hr0, c0, hc0, h00⟩
    have hne : emptyCells b ≠ [] := by
      intro hnil
      exact ((emptyCells_eq_nil_iff b).mp hnil) r0 hr0 c0 hc0 h00
    obtain ⟨r, c, h4, h5, h6, hp, heq⟩ := addRandomTile_spawn b q1 q2 h0 h1 hne
    refine ⟨r, c, h4, h5, h6, hp, heq, ?_, ?_, ?_⟩
    · rw [heq]
      exact cell_setCell_same b r c _ hb h4 h5
    · by_cases hq : q2 < 9 / 10 <;> simp [hq]
    · intro r2 c2 hne2
      rw [heq]
      exact cell_setCell_other b r c _ r2 c2 hne2

/-- Witness for C9 on a concrete board with an empty cell. -/
theorem claim9_spawn_witness :
    WF4 [[2, 0, 2, 4], [4, 2, 4, 2], [2, 4, 2, 4], [4, 2, 4, 0]] ∧
    (∃ r < 4, ∃ c < 4, cell [[2, 0, 2, 4], [4, 2, 4, 2], [2, 4, 2, 4], [4, 2, 4, 0]] r c = 0) ∧
    (∃ r c, r < 4 ∧ c < 4 ∧
      cell [[2, 0, 2, 4], [4, 2, 4, 2], [2, 4, 2, 4], [4, 2, 4, 0]] r c = 0 ∧
      (r, c) = (emptyCells [[2, 0, 2, 4], [4, 2, 4, 2], [2, 4, 2, 4], [4, 2, 4, 0]]).getD
        ((⌊(0 : ℚ) *
          ((emptyCells [[2, 0, 2, 4], [4, 2, 4, 2], [2, 4, 2, 4], [4, 2, 4, 0]]).length : ℚ)⌋).toNat)
        (0, 0) ∧
      addRandomTile [[2, 0, 2, 4], [4, 2, 4, 2], [2, 4, 2, 4], [4, 2, 4, 0]] 0 0
        = setCell [[2, 0, 2, 4], [4, 2, 4, 2], [2, 4, 2, 4], [4, 2, 4, 0]] r c
            (if (0 : ℚ) < 9 / 10 then 2 else 4) ∧
      cell (addRandomTile [[2, 0, 2, 4], [4, 2, 4, 2], [2, 4, 2, 4], [4, 2, 4, 0]] 0 0) r c
        = (if (0 : ℚ) < 9 / 10 then 2 else 4) ∧
      ((if (0 : ℚ) < 9 / 10 then (2 : Nat) else 4) = 2 ∨
        (if (0 : ℚ) < 9 / 10 then (2 : Nat) else 4) = 4) ∧
      ∀ r2 c2, ¬(r2 = r ∧ c2 = c) →
        cell (addRandomTile [[2, 0, 2, 4], [4, 2, 4, 2], [2, 4, 2, 4], [4, 2, 4, 0]] 0 0) r2 c2
          = cell [[2, 0, 2, 4], [4, 2, 4, 2], [2, 4, 2, 4], [4, 2, 4, 0]] r2 c2) :=
  ⟨by decide, ⟨0, by omega, 1, by omega, by decide⟩,
    (claim9_spawn _ 0 0 (by decide) (le_refl 0) zero_lt_one).2
      ⟨0, by omega, 1, by omega, by decide⟩⟩

end Game2048
